import Mathlib

/-!
Shallow embedding of the game-logic core of the Tetris repository
(`src/constants.ts`, `src/types.ts`, `src/components/TetrisGame.tsx`).

Boards are lists of rows (top row first), rows are lists of cell values
(`0` = empty, `1..7` = colour tags), matching `BoardMatrix` in `types.ts`.
Positions use `Int` coordinates because pieces may sit partially above the
visible board (negative rows) and kicks probe negative columns.
-/

namespace Tetris

/-- `BOARD_WIDTH` from `constants.ts`. -/
def BOARD_WIDTH : Nat := 10

/-- `BOARD_HEIGHT` from `constants.ts`. -/
def BOARD_HEIGHT : Nat := 20

/-- `INITIAL_FALL_INTERVAL` (ms) from `constants.ts`. -/
def INITIAL_FALL_INTERVAL : Int := 1000

/-- `LEVEL_INTERVAL_DECREMENT` (ms per level) from `constants.ts`. -/
def LEVEL_INTERVAL_DECREMENT : Int := 50

/-- `LINES_PER_LEVEL` from `constants.ts`. -/
def LINES_PER_LEVEL : Nat := 10

abbrev Row := List Nat
abbrev Board := List Row
abbrev Matrix := List (List Nat)

/-- `Position` from `types.ts`. -/
structure Position where
  row : Int
  col : Int
deriving DecidableEq, Repr

/-- `TetrominoShape` from `types.ts`. -/
structure TetrominoShape where
  id : String
  matrix : Matrix
  colorIndex : Nat
deriving DecidableEq, Repr

/-- `ActivePiece` from `types.ts`. -/
structure ActivePiece where
  shape : TetrominoShape
  matrices : List Matrix
  rotation : Nat
  position : Position
deriving DecidableEq, Repr

/-- A row of `BOARD_WIDTH` empty cells (`Array(BOARD_WIDTH).fill(0)`). -/
def emptyRow : Row := List.replicate BOARD_WIDTH 0

/-- `createEmptyBoard` from `TetrisGame.tsx`. -/
def createEmptyBoard : Board := List.replicate BOARD_HEIGHT emptyRow

/-- A board as the code maintains it: `BOARD_HEIGHT` rows of `BOARD_WIDTH` cells. -/
def wellFormed (b : Board) : Prop :=
  b.length = BOARD_HEIGHT ∧ ∀ row ∈ b, row.length = BOARD_WIDTH

instance (b : Board) : Decidable (wellFormed b) := by
  unfold wellFormed; infer_instance

/-- Reading `board[r][c]`.  Out-of-range reads yield `0`; on the well-formed
boards the code manipulates, every read that can influence a result is either
in range or guarded by a bounds disjunct that already decides the outcome. -/
def getCell (b : Board) (r c : Int) : Nat :=
  if 0 ≤ r ∧ 0 ≤ c then (b.getD r.toNat []).getD c.toNat 0 else 0

/-- The write `board[r][c] = v` (`List.set` ignores out-of-range indices;
call sites guard `0 ≤ r < BOARD_HEIGHT ∧ 0 ≤ c < BOARD_WIDTH`). -/
def setCell (b : Board) (r c : Int) (v : Nat) : Board :=
  b.set r.toNat ((b.getD r.toNat []).set c.toNat v)

/-- `checkCollision` from `TetrisGame.tsx` (lines 95-114): an occupied cell of
the current rotation matrix collides when its projected row is `≥ BOARD_HEIGHT`,
its projected column is `< 0` or `≥ BOARD_WIDTH`, or its projected row is `≥ 0`
and the board cell there is non-empty. -/
def checkCollision (piece : ActivePiece) (pos : Position) (boardToCheck : Board) : Bool :=
  let matrix := piece.matrices.getD piece.rotation []
  (List.range matrix.length).any fun r =>
    (List.range ((matrix.getD r []).length)).any fun c =>
      decide ((matrix.getD r []).getD c 0 ≠ 0) &&
        (decide ((BOARD_HEIGHT : Int) ≤ pos.row + r) ||
          decide (pos.col + c < 0) ||
          decide ((BOARD_WIDTH : Int) ≤ pos.col + c) ||
          (decide (0 ≤ pos.row + r) &&
            decide (getCell boardToCheck (pos.row + r) (pos.col + c) ≠ 0)))

/-- Row-major enumeration of the cell coordinates of a rotation matrix: the
iteration domain of the nested `forEach`/`for` loops over `matrix`. -/
def cellPairs (m : Matrix) : List (Nat × Nat) :=
  (List.range m.length).flatMap fun r =>
    (List.range ((m.getD r []).length)).map fun c => (r, c)

/-- One iteration of the nested `forEach` in `lockPiece` (lines 165-175):
write an occupied cell into the board copy when its projection is in bounds,
drop it silently otherwise. -/
def settleStep (pos : Position) (m : Matrix) (b : Board) (rc : Nat × Nat) : Board :=
  let cell := (m.getD rc.1 []).getD rc.2 0
  if cell ≠ 0 then
    let boardRow := pos.row + rc.1
    let boardCol := pos.col + rc.2
    if 0 ≤ boardRow ∧ boardRow < BOARD_HEIGHT ∧ 0 ≤ boardCol ∧ boardCol < BOARD_WIDTH then
      setCell b boardRow boardCol cell
    else b
  else b

/-- The board write of `lockPiece` (lines 163-175): fold the nested `forEach`
over the matrix cells in row-major order. -/
def settle (b : Board) (piece : ActivePiece) : Board :=
  let m := piece.matrices.getD piece.rotation []
  (cellPairs m).foldl (settleStep piece.position m) b

/-- `newBoard[r].every(cell => cell !== 0)` — a full row. -/
def rowFull (row : Row) : Bool := row.all fun cell => decide (cell ≠ 0)

/-- The full-row scan of `lockPiece` (lines 201-206): indices collected from
row `BOARD_HEIGHT - 1` down to `0`, so the list is in descending order. -/
def fullRowIndices (b : Board) : List Nat :=
  ((List.range BOARD_HEIGHT).reverse).filter fun r => rowFull (b.getD r [])

/-- Descending insertion, for modelling `[...].sort((a, b) => b - a)`. -/
def insertDesc (x : Nat) : List Nat → List Nat
  | [] => [x]
  | y :: ys => if y ≤ x then x :: y :: ys else y :: insertDesc x ys

/-- `[...clearingRowsRef.current].sort((a, b) => b - a)`: the row indices in
descending order. -/
def sortDesc : List Nat → List Nat
  | [] => []
  | x :: xs => insertDesc x (sortDesc xs)

/-- The clear-completion step of `lockPiece` (lines 219-230): sort the
detected rows descending, then for each row index splice that row out and
immediately unshift an empty row at the top.  Returns the resulting board and
`linesClearedThisTurn`. -/
def clearCompletion (b : Board) (clearingRows : List Nat) : Board × Nat :=
  let sortedClearingRows := sortDesc clearingRows
  (sortedClearingRows.foldl (fun acc rowIndex => emptyRow :: acc.eraseIdx rowIndex) b,
    sortedClearingRows.length)

/-- One 90° clockwise rotation from `getRotations` in `constants.ts`:
`newMatrix[c][N - 1 - r] = currentMatrix[r][c]`, i.e. the entry of the new
matrix at `(r, c)` is the old entry at `(N - 1 - c, r)`. -/
def rotateCW (m : Matrix) : Matrix :=
  let N := m.length
  (List.range N).map fun r =>
    (List.range N).map fun c => (m.getD (N - 1 - c) []).getD r 0

/-- `getRotations` from `constants.ts`: the base matrix followed by its three
successive 90° rotations. -/
def getRotations (m : Matrix) : List Matrix :=
  [m, rotateCW m, rotateCW (rotateCW m), rotateCW (rotateCW (rotateCW m))]

/-- `I_SHAPE` from `constants.ts`. -/
def I_SHAPE : TetrominoShape :=
  ⟨"I", [[0,0,0,0],[1,1,1,1],[0,0,0,0],[0,0,0,0]], 1⟩

/-- `L_SHAPE` from `constants.ts`. -/
def L_SHAPE : TetrominoShape := ⟨"L", [[0,2,0],[0,2,0],[0,2,2]], 2⟩

/-- `J_SHAPE` from `constants.ts`. -/
def J_SHAPE : TetrominoShape := ⟨"J", [[0,3,0],[0,3,0],[3,3,0]], 3⟩

/-- `O_SHAPE` from `constants.ts`. -/
def O_SHAPE : TetrominoShape := ⟨"O", [[4,4],[4,4]], 4⟩

/-- `S_SHAPE` from `constants.ts`. -/
def S_SHAPE : TetrominoShape := ⟨"S", [[0,5,5],[5,5,0],[0,0,0]], 5⟩

/-- `Z_SHAPE` from `constants.ts`. -/
def Z_SHAPE : TetrominoShape := ⟨"Z", [[6,6,0],[0,6,6],[0,0,0]], 6⟩

/-- `T_SHAPE` from `constants.ts`. -/
def T_SHAPE : TetrominoShape := ⟨"T", [[0,7,0],[7,7,7],[0,0,0]], 7⟩

/-- The deterministic part of `spawnNewPiece` (lines 83-93), applied to a
chosen shape: retag the template cells with the shape's colour, precompute the
four rotation states, and place the piece at row 0, horizontally centred. -/
def spawnPiece (shape : TetrominoShape) : ActivePiece :=
  let matrices := getRotations
    (shape.matrix.map fun row => row.map fun cell => if 0 < cell then shape.colorIndex else 0)
  { shape := shape, matrices := matrices, rotation := 0,
    position :=
      ⟨0, ((BOARD_WIDTH / 2 : Nat) : Int) -
          ((((matrices.getD 0 []).getD 0 []).length / 2 : Nat) : Int)⟩ }

/-- First legal placement of an already-rotated piece among a list of candidate
positions (the kick searches in `rotatePiece` and `executeAiStep` both commit
the first offset whose placement passes `checkCollision`). -/
def firstLegal (rotated : ActivePiece) (b : Board) : List Position → Option ActivePiece
  | [] => none
  | pos :: rest =>
    if checkCollision rotated pos b then firstLegal rotated b rest
    else some { rotated with position := pos }

/-- `rotatePiece` from `TetrisGame.tsx` (lines 310-344), as a pure function:
`some` of the new piece state when the rotation (possibly via a kick) is
committed, `none` when every kick collides and the piece stays unchanged. -/
def rotatePieceManual (p : ActivePiece) (b : Board) : Option ActivePiece :=
  let newRotation := (p.rotation + 1) % p.matrices.length
  let rotatedPiece := { p with rotation := newRotation }
  if ¬ checkCollision rotatedPiece p.position b then some rotatedPiece
  else
    match firstLegal rotatedPiece b
      ([-1, 1, -2, 2].map fun offset => ⟨p.position.row, p.position.col + offset⟩) with
    | some q => some q
    | none =>
      if p.shape.id = "I" ∧ p.position.row ≤ 1 then
        firstLegal rotatedPiece b
          [⟨p.position.row - 1, p.position.col⟩, ⟨p.position.row - 2, p.position.col⟩]
      else if p.position.row ≤ 1 then
        firstLegal rotatedPiece b [⟨p.position.row - 1, p.position.col⟩]
      else none

/-- The rotation attempt of `executeAiStep` (lines 529-562), as a pure
function: `some` of the new piece state when the rotation to
`targetRotation` (possibly via a kick) is committed, `none` when the driver
gives up and locks the piece in place. -/
def aiRotateAttempt (p : ActivePiece) (targetRotation : Nat) (b : Board) : Option ActivePiece :=
  let rotatedPieceState := { p with rotation := targetRotation }
  if ¬ checkCollision rotatedPieceState p.position b then some rotatedPieceState
  else
    match firstLegal rotatedPieceState b
      ([-1, 1, -2, 2].map fun offset => ⟨p.position.row, p.position.col + offset⟩) with
    | some q => some q
    | none =>
      if (p.shape.id = "I" ∨ p.shape.id = "L" ∨ p.shape.id = "J") ∧ p.position.row ≤ 1 then
        firstLegal rotatedPieceState b
          ([-1, -2].map fun upOffset => ⟨p.position.row + upOffset, p.position.col⟩)
      else none

/-! ### The heuristic evaluator `evaluateBoardState` (lines 390-458) -/

/-- The simulated placement of `evaluateBoardState` (lines 398-410): identical
cell writes to `lockPiece`'s settle, with the row taken from `dropRow` and the
column from the piece's position. -/
def settleAt (tempBoard : Board) (piece : ActivePiece) (dropRow : Int) : Board :=
  settle tempBoard { piece with position := ⟨dropRow, piece.position.col⟩ }

/-- The `isPlacedGameOver` flag of `evaluateBoardState`: some occupied cell of
the simulated placement lands at a board row `< 0`. -/
def placedBelowTop (piece : ActivePiece) (dropRow : Int) : Bool :=
  let m := piece.matrices.getD piece.rotation []
  (cellPairs m).any fun rc =>
    decide ((m.getD rc.1 []).getD rc.2 0 ≠ 0) && decide (dropRow + rc.1 < 0)

/-- The full-row clearing loop of `evaluateBoardState` (lines 414-422): scan
`r_idx` from the bottom; on a full row splice it out, unshift an empty row and
re-check the same index, otherwise decrement.  The `while`-style loop is
embedded with fuel; on a 20-row board it runs at most
`countFullRows + BOARD_HEIGHT ≤ 40` iterations, so fuel 64 is never exhausted. -/
def clearScanAux : Nat → Board → Nat → Board × Nat
  | 0, b, _ => (b, 0)
  | fuel + 1, b, r =>
    if rowFull (b.getD r []) then
      let rest := clearScanAux fuel (emptyRow :: b.eraseIdx r) r
      (rest.1, rest.2 + 1)
    else if r = 0 then (b, 0)
    else clearScanAux fuel b (r - 1)

/-- The clearing loop started at the bottom row, returning the cleared board
and `linesClearedCount`. -/
def clearScan (b : Board) : Board × Nat := clearScanAux 64 b (BOARD_HEIGHT - 1)

/-- Column `c` of the board, top to bottom (`boardAfterPlace[r_idx][c]` for
`r_idx = 0..BOARD_HEIGHT-1`; well-formed boards have exactly that many rows). -/
def colCells (b : Board) (c : Nat) : List Nat := b.map fun row => row.getD c 0

/-- Index of the first non-zero entry — the `break` scan of the heights loop
(lines 427-433). -/
def firstNonzero : List Nat → Option Nat
  | [] => none
  | x :: xs => if x ≠ 0 then some 0 else (firstNonzero xs).map (· + 1)

/-- `heights[c]` from `evaluateBoardState`: `BOARD_HEIGHT - r_idx` for the
first occupied row of the column, `0` for an empty column. -/
def colHeight (b : Board) (c : Nat) : Nat :=
  match firstNonzero (colCells b c) with
  | some r => BOARD_HEIGHT - r
  | none => 0

/-- `aggregateHeight` from `evaluateBoardState` (lines 425-435). -/
def aggregateHeight (b : Board) : Nat :=
  ((List.range BOARD_WIDTH).map fun c => colHeight b c).sum

/-- The per-column hole scan of `evaluateBoardState` (lines 439-448):
`blockReached` is set by the first occupied cell; empty cells after it count. -/
def holesInCol : List Nat → Bool → Nat
  | [], _ => 0
  | x :: xs, blockReached =>
    if x ≠ 0 then holesInCol xs true
    else (if blockReached then 1 else 0) + holesInCol xs blockReached

/-- `holes` from `evaluateBoardState`. -/
def countHoles (b : Board) : Nat :=
  ((List.range BOARD_WIDTH).map fun c => holesInCol (colCells b c) false).sum

/-- `bumpiness` from `evaluateBoardState` (lines 451-455). -/
def bumpiness (b : Board) : Nat :=
  ((List.range (BOARD_WIDTH - 1)).map fun c =>
    ((colHeight b c : Int) - (colHeight b (c + 1) : Int)).natAbs).sum

/-- `evaluateBoardState` from `TetrisGame.tsx` (lines 390-458).  The JavaScript
returns the IEEE value `-Infinity` when an occupied cell lands above the board;
that sentinel is modelled as `none`, a finite score as `some`. -/
def evaluateBoardState (tempBoard : Board) (piece : ActivePiece) (dropRow : Int) : Option Int :=
  let boardAfterPlace := settleAt tempBoard piece dropRow
  if placedBelowTop piece dropRow then none
  else
    let scan := clearScan boardAfterPlace
    some ((scan.2 : Int) * 5000 - (aggregateHeight scan.1 : Int) * 10
      - (countHoles scan.1 : Int) * 75 - (bumpiness scan.1 : Int) * 3)

/-! ### The planner `calculateBestMove` (lines 460-513) -/

/-- `AiMove` from `TetrisGame.tsx`; `score = none` models `-Infinity`. -/
structure AiMove where
  targetRotation : Nat
  targetCol : Int
  score : Option Int
  finalRow : Int
deriving DecidableEq, Repr

/-- JavaScript `>` on scores where `none` stands for `-Infinity`. -/
def scoreGt : Option Int → Option Int → Bool
  | none, _ => false
  | some _, none => true
  | some a, some b => decide (b < a)

/-- The inclusive enumeration `for (let col = lo; col <= hi; col++)`. -/
def intRange (lo hi : Int) : List Int :=
  (List.range (hi + 1 - lo).toNat).map fun i => lo + i

/-- The occupied-column scan of `calculateBestMove` (lines 465-476), listing
the column index of every occupied cell in row-major order. -/
def occupiedCols (m : Matrix) : List Nat :=
  (cellPairs m).filterMap fun rc =>
    if (m.getD rc.1 []).getD rc.2 0 ≠ 0 then some rc.2 else none

/-- `minCShape`, accumulated from the initial value `matrix[0].length`. -/
def minCShape (m : Matrix) : Nat := (occupiedCols m).foldl min ((m.getD 0 []).length)

/-- `maxCShape`, accumulated from the initial value `-1`. -/
def maxCShapeI (m : Matrix) : Int := (occupiedCols m).foldl (fun a c => max a (c : Int)) (-1)

/-- `pieceIsEmpty` from `calculateBestMove`. -/
def pieceIsEmpty (m : Matrix) : Bool := (occupiedCols m).isEmpty

/-- The entry probe of `calculateBestMove` (lines 486-497): start at row 0; if
that collides, probe rows `-1, -2, -3`; when none fits the candidate column is
skipped (`continue`).  (The code's final re-check of row 0 repeats the first
`checkCollision` call on identical inputs, so it is the same condition.) -/
def findEntryRow (testPiece : ActivePiece) (col : Int) (b : Board) : Option Int :=
  if checkCollision testPiece ⟨0, col⟩ b then
    if ¬ checkCollision testPiece ⟨-1, col⟩ b then some (-1)
    else if ¬ checkCollision testPiece ⟨-2, col⟩ b then some (-2)
    else if ¬ checkCollision testPiece ⟨-3, col⟩ b then some (-3)
    else none
  else some 0

/-- The descent loop `while (!checkCollision(piece, {row+1, col}))` shared by
`calculateBestMove` (lines 499-502) and `hardDrop` (lines 350-352), with fuel:
a piece with at least one occupied cell collides once the cell's row reaches
`BOARD_HEIGHT`, so from any entry row `≥ -3` far fewer than 64 steps occur. -/
def dropFrom (p : ActivePiece) (col : Int) (b : Board) : Int → Nat → Int
  | row, 0 => row
  | row, fuel + 1 =>
    if checkCollision p ⟨row + 1, col⟩ b then row
    else dropFrom p col b (row + 1) fuel

/-- Candidate handling inside the column loop of `calculateBestMove`
(lines 480-509). -/
def considerCandidate (p : ActivePiece) (b : Board) (best : Option AiMove)
    (rot : Nat) (col : Int) : Option AiMove :=
  let testPiece : ActivePiece := { p with rotation := rot, position := ⟨0, col⟩ }
  match findEntryRow testPiece col b with
  | none => best
  | some simulatedRow =>
    let finalDropRow := dropFrom testPiece col b simulatedRow 64
    let scoreForMove :=
      evaluateBoardState b { testPiece with position := ⟨finalDropRow, col⟩ } finalDropRow
    match best with
    | none => some ⟨rot, col, scoreForMove, finalDropRow⟩
    | some bm =>
      if scoreGt scoreForMove bm.score then some ⟨rot, col, scoreForMove, finalDropRow⟩
      else best

/-- `calculateBestMove` from `TetrisGame.tsx` (lines 460-513): enumerate
rotations in ascending order, columns in ascending order from `-minCShape` to
`BOARD_WIDTH - 1 - maxCShape`, keep the first candidate and afterwards only
strictly higher scores. -/
def calculateBestMove (piece : ActivePiece) (currentBoard : Board) : Option AiMove :=
  (List.range piece.matrices.length).foldl (fun best rot =>
    let currentMatrix := piece.matrices.getD rot []
    if pieceIsEmpty currentMatrix then best
    else
      (intRange (-(minCShape currentMatrix : Int))
          ((BOARD_WIDTH : Int) - 1 - maxCShapeI currentMatrix)).foldl
        (fun best2 col => considerCandidate piece currentBoard best2 rot col) best) none

/-! ### Scoring, leveling and the AI think delay -/

/-- The session counters (score, total lines, level, current fall interval). -/
structure Counters where
  score : Nat
  totalLines : Nat
  level : Nat
  fallInterval : Int
deriving DecidableEq, Repr

/-- The scoring/leveling block of the clear-completion step (lines 232-241):
on `linesClearedThisTurn > 0`, add the quadratic line bonus, update the total,
and recompute level and fall interval when the level rises. -/
def scoringUpdate (c : Counters) (linesClearedThisTurn : Nat) : Counters :=
  if 0 < linesClearedThisTurn then
    let newTotalLines := c.totalLines + linesClearedThisTurn
    let newScore := c.score + linesClearedThisTurn * 100 * linesClearedThisTurn * c.level
    let newLevel := newTotalLines / LINES_PER_LEVEL + 1
    if c.level < newLevel then
      { score := newScore, totalLines := newTotalLines, level := newLevel,
        fallInterval :=
          max 100 (INITIAL_FALL_INTERVAL - ((newLevel : Int) - 1) * LEVEL_INTERVAL_DECREMENT) }
    else { c with score := newScore, totalLines := newTotalLines }
  else c

/-- The AI think delay (line 606):
`fallInterval > 0 ? Math.min(fallInterval / 2, 200) : 100`.  Intervals are
multiples of 50, so rational division models the JavaScript float exactly. -/
def computeThinkTime (fallInterval : ℚ) : ℚ :=
  if 0 < fallInterval then min (fallInterval / 2) 200 else 100

/-! ### The sequencing state machine

The React component keeps its state in `useState` hooks and refs; the
operations below thread that state explicitly through a record.  Randomness
(`spawnNewPiece`) is modelled by passing the freshly generated pieces as
arguments, and timers by invoking the scheduled bodies as separate
transitions. -/

/-- `GameState` from `types.ts`. -/
inductive GState where
  | Playing
  | Paused
  | GameOver
  | Initial
deriving DecidableEq, Repr

/-- The mutable game state of `TetrisGame.tsx` relevant to sequencing:
board, active piece, next-piece preview, session counters, game phase, the
line-clear-animation flag with its row set, and the AI driver's refs. -/
structure GameS where
  board : Board
  currentPiece : Option ActivePiece
  nextPreview : Option ActivePiece
  counters : Counters
  phase : GState
  isClearing : Bool
  clearingRows : List Nat
  aiMove : Option AiMove
  aiInProgress : Bool
deriving DecidableEq, Repr

/-- The board, active piece and session counters — the observables claim C9
requires to be untouched while the Clearing phase is active. -/
def obs (s : GameS) : Board × Option ActivePiece × Counters :=
  (s.board, s.currentPiece, s.counters)

/-- The game-over scan of `lockPiece` (lines 177-187): some occupied cell of
the locked piece maps to a board row `< 0`. -/
def lockGameOver (p : ActivePiece) : Bool :=
  let m := p.matrices.getD p.rotation []
  (cellPairs m).any fun rc =>
    decide ((m.getD rc.1 []).getD rc.2 0 ≠ 0) && decide (p.position.row + rc.1 < 0)

/-- `lockPiece` from `TetrisGame.tsx` (lines 156-290), synchronous part: the
guard against re-entry during clearing, the settle, the lock-phase game-over
check, the full-row scan, and — when no rows cleared — the immediate respawn
(`spawnA` is the fresh piece used if no preview is queued, `spawnB` refills
the preview).  When rows are full the clear-completion body runs later as
`clearCompleteS`. -/
def lockPieceS (s : GameS) (pieceToLock : Option ActivePiece)
    (spawnA spawnB : ActivePiece) : GameS :=
  match pieceToLock with
  | none => { s with aiInProgress := false }
  | some p =>
    if s.isClearing then s
    else
      let newBoard := settle s.board p
      if lockGameOver p then
        { s with phase := GState.GameOver, currentPiece := none, aiInProgress := false,
                 aiMove := none, isClearing := false, clearingRows := [] }
      else
        let linesToClearIndices := fullRowIndices newBoard
        if linesToClearIndices ≠ [] then
          { s with board := newBoard, clearingRows := linesToClearIndices,
                   isClearing := true, currentPiece := none }
        else
          let newPieceToSpawn := match s.nextPreview with
            | some q => q
            | none => spawnA
          if checkCollision newPieceToSpawn newPieceToSpawn.position newBoard then
            { s with board := newBoard, phase := GState.GameOver, currentPiece := none,
                     nextPreview := some spawnB, aiInProgress := false, aiMove := none }
          else
            { s with board := newBoard, currentPiece := some newPieceToSpawn,
                     nextPreview := some spawnB, aiInProgress := false, aiMove := none }

/-- The clear-completion timeout body of `lockPiece` (lines 219-266): splice
and pad the board, apply scoring/leveling, respawn from the preview, and leave
the Clearing phase. -/
def clearCompleteS (s : GameS) (spawnA spawnB : ActivePiece) : GameS :=
  let cleared := clearCompletion s.board s.clearingRows
  let counters := scoringUpdate s.counters cleared.2
  let newPieceToSpawn := match s.nextPreview with
    | some q => q
    | none => spawnA
  if checkCollision newPieceToSpawn newPieceToSpawn.position cleared.1 then
    { s with board := cleared.1, counters := counters, phase := GState.GameOver,
             nextPreview := some spawnB, clearingRows := [], isClearing := false,
             aiInProgress := false, aiMove := none }
  else
    { s with board := cleared.1, counters := counters, currentPiece := some newPieceToSpawn,
             nextPreview := some spawnB, clearingRows := [], isClearing := false,
             aiInProgress := false, aiMove := none }

/-- `movePiece` from `TetrisGame.tsx` (lines 293-301): the new state and the
boolean result. -/
def movePieceS (s : GameS) (dRow dCol : Int) : GameS × Bool :=
  match s.currentPiece with
  | none => (s, false)
  | some p =>
    if s.phase ≠ GState.Playing ∨ s.isClearing = true then (s, false)
    else
      let newPosition : Position := ⟨p.position.row + dRow, p.position.col + dCol⟩
      if ¬ checkCollision p newPosition s.board then
        ({ s with currentPiece := some { p with position := newPosition } }, true)
      else (s, false)

/-- `moveDown` from `TetrisGame.tsx` (lines 303-308). -/
def moveDownS (s : GameS) (spawnA spawnB : ActivePiece) : GameS :=
  match s.currentPiece with
  | none => s
  | some p =>
    if s.phase ≠ GState.Playing ∨ s.isClearing = true then s
    else
      let attempt := movePieceS s 1 0
      if attempt.2 then attempt.1 else lockPieceS s (some p) spawnA spawnB

/-- `rotatePiece` from `TetrisGame.tsx` (lines 310-344) as a state transition. -/
def rotatePieceS (s : GameS) : GameS :=
  match s.currentPiece with
  | none => s
  | some p =>
    if s.phase ≠ GState.Playing ∨ s.isClearing = true then s
    else match rotatePieceManual p s.board with
      | some q => { s with currentPiece := some q }
      | none => s

/-- `hardDrop` from `TetrisGame.tsx` (lines 346-355). -/
def hardDropS (s : GameS) (spawnA spawnB : ActivePiece) : GameS :=
  match s.currentPiece with
  | none => s
  | some p =>
    if s.phase ≠ GState.Playing ∨ s.isClearing = true then s
    else
      let newRow := dropFrom p p.position.col s.board p.position.row 64
      lockPieceS s (some { p with position := ⟨newRow, p.position.col⟩ }) spawnA spawnB

/-- The gravity tick inside `animate` (lines 752-757): `moveDown` fires only
while Playing with an active piece, AI off, no clear animation, and the fall
timer elapsed. -/
def gravityTickS (s : GameS) (isAiActive timerElapsed : Bool)
    (spawnA spawnB : ActivePiece) : GameS :=
  if s.phase = GState.Playing ∧ s.currentPiece ≠ none ∧ isAiActive = false ∧
      s.isClearing = false ∧ timerElapsed = true then
    moveDownS s spawnA spawnB
  else s

/-- `executeAiStep` from `TetrisGame.tsx` (lines 516-591): the guard resets
the driver's refs; otherwise one discrete action is issued in the priority
rotate → shift → descend → lock, locking immediately on any failure. -/
def executeAiStepS (s : GameS) (isAiActive : Bool) (spawnA spawnB : ActivePiece) : GameS :=
  if isAiActive = false ∨ s.phase ≠ GState.Playing ∨ s.currentPiece = none ∨
      s.aiMove = none ∨ s.isClearing = true then
    { s with aiInProgress := false, aiMove := none }
  else
    match s.currentPiece, s.aiMove with
    | some piece, some targetMove =>
      if piece.rotation ≠ targetMove.targetRotation then
        match aiRotateAttempt piece targetMove.targetRotation s.board with
        | some q => { s with currentPiece := some q }
        | none => lockPieceS s (some piece) spawnA spawnB
      else if piece.position.col ≠ targetMove.targetCol then
        let direction : Int := if piece.position.col < targetMove.targetCol then 1 else -1
        let attempt := movePieceS s 0 direction
        if attempt.2 then attempt.1 else lockPieceS s (some piece) spawnA spawnB
      else if piece.position.row < targetMove.finalRow then
        let attempt := movePieceS s 1 0
        if attempt.2 then attempt.1 else lockPieceS s (some piece) spawnA spawnB
      else lockPieceS s (some piece) spawnA spawnB
    | _, _ => s

/-! ### Specification-level definitions

These follow the wording of the specification, for comparison with the
definitions translated from the code. -/

/-- The value the piece contributes at board position `(R, C)`: the entry of
the current rotation matrix at offset `(R, C) - position`, `0` outside the
matrix. -/
def pieceCellAt (p : ActivePiece) (R C : Int) : Nat :=
  let m := p.matrices.getD p.rotation []
  if 0 ≤ R - p.position.row ∧ 0 ≤ C - p.position.col then
    (m.getD (R - p.position.row).toNat []).getD (C - p.position.col).toNat 0
  else 0

/-- Spec 4.5: "any occupied cell lands at row < 0" for a placement at
`dropRow`. -/
def invalidPlacement (p : ActivePiece) (dropRow : Int) : Prop :=
  ∃ r c, r < (p.matrices.getD p.rotation []).length ∧
    c < ((p.matrices.getD p.rotation []).getD r []).length ∧
    ((p.matrices.getD p.rotation []).getD r []).getD c 0 ≠ 0 ∧
    dropRow + (r : Int) < 0

instance (p : ActivePiece) (dropRow : Int) : Decidable (invalidPlacement p dropRow) :=
  decidable_of_iff (∃ r ∈ List.range (p.matrices.getD p.rotation []).length,
    ∃ c ∈ List.range ((p.matrices.getD p.rotation []).getD r []).length,
      ((p.matrices.getD p.rotation []).getD r []).getD c 0 ≠ 0 ∧ dropRow + (r : Int) < 0) (by
    unfold invalidPlacement
    simp only [List.mem_range]
    exact ⟨fun ⟨r, hr, c, hc, h1, h2⟩ => ⟨r, c, hr, hc, h1, h2⟩,
      fun ⟨r, c, hr, hc, h1, h2⟩ => ⟨r, hr, c, hc, h1, h2⟩⟩)

/-- The number of full rows of a board. -/
def countFullRows (b : Board) : Nat := b.countP rowFull

/-- Spec 4.3/4.5 clearing: remove every full row and insert an equal number of
empty rows at the top. -/
def clearedBoardSpec (b : Board) : Board :=
  List.replicate (countFullRows b) emptyRow ++ b.filter fun row => ! rowFull row

/-- Spec 4.5 column height on a column list (top to bottom): "distance from
top of highest occupied cell to board bottom, 0 if column empty" — the
largest `BOARD_HEIGHT - r` over occupied rows `r`. -/
def colHeightSpecCol (l : List Nat) : Nat :=
  ((Finset.range BOARD_HEIGHT).filter fun r => l.getD r 0 ≠ 0).sup fun r => BOARD_HEIGHT - r

/-- Spec 4.5 aggregate height: sum of the per-column stack heights. -/
def aggregateHeightSpec (b : Board) : Nat :=
  ((List.range BOARD_WIDTH).map fun c => colHeightSpecCol (colCells b c)).sum

/-- Spec 4.5 holes in one column: positions that are empty with some
non-empty cell above them. -/
def holesSpecCol (l : List Nat) : Nat :=
  (List.range l.length).countP fun i =>
    decide (l.getD i 0 = 0) && (List.range i).any fun j => decide (l.getD j 0 ≠ 0)

/-- Spec 4.5 holes: summed over the columns. -/
def holesSpec (b : Board) : Nat :=
  ((List.range BOARD_WIDTH).map fun c => holesSpecCol (colCells b c)).sum

/-- Spec 4.5 bumpiness: sum of absolute height differences of adjacent
columns. -/
def bumpinessSpec (b : Board) : Nat :=
  ((List.range (BOARD_WIDTH - 1)).map fun c =>
    ((colHeightSpecCol (colCells b c) : Int) - (colHeightSpecCol (colCells b (c + 1)) : Int)).natAbs).sum

/-! ### Concrete instances used by counterexamples and witnesses -/

/-- A board whose bottom two rows (indices 18 and 19) are full and all other
rows empty. -/
def boardTwoFullBottomRows : Board :=
  List.replicate 18 emptyRow ++ [List.replicate 10 1, List.replicate 10 1]

/-- The freshly spawned O piece (rotation 0, row 0, column 4). -/
def oPieceInit : ActivePiece := spawnPiece O_SHAPE

/-- A board that is empty except for row 2, columns 3-7. -/
def boardRowTwoWall : Board :=
  List.replicate 2 emptyRow ++ [[0,0,0,1,1,1,1,1,0,0]] ++ List.replicate 17 emptyRow

/-- A T piece at the top of the board, column 4. -/
def tPieceTop : ActivePiece := { spawnPiece T_SHAPE with position := ⟨0, 4⟩ }

/-- An I piece near the top, column 3. -/
def iPieceW : ActivePiece := { spawnPiece I_SHAPE with position := ⟨0, 3⟩ }

/-- A game state in the middle of the Clearing phase. -/
def clearingStateW : GameS :=
  { board := boardTwoFullBottomRows, currentPiece := some oPieceInit,
    nextPreview := none, counters := ⟨0, 0, 1, 1000⟩, phase := GState.Playing,
    isClearing := true, clearingRows := [19, 18], aiMove := some ⟨0, 0, some 0, 18⟩,
    aiInProgress := true }

end Tetris

namespace Tetris

example : rowFull (List.replicate 10 1) = true := by decide
example : rowFull emptyRow = false := by decide
example : (spawnPiece O_SHAPE).position = ⟨0, 4⟩ := by decide
example : (spawnPiece T_SHAPE).matrices.getD 1 [] = [[0,7,0],[0,7,7],[0,7,0]] := by decide

/-! ### Claim C1 — the clear-completion step (code bug)

The spec says the detected full rows are removed highest-index-first "to keep
remaining indices stable" and exactly those rows disappear.  The code instead
unshifts an empty row after each individual splice, which shifts every row
above the splice point down by one before the next (lower) detected index is
spliced, so with two or more detected rows the later splices remove the wrong
rows and a detected full row survives. -/

/-- Claim C1, evaluated at the failing input: on the board whose rows 18 and
19 are full, the lock-time scan detects exactly `[19, 18]`, yet the
clear-completion step produces a board whose bottom row is still full — the
second splice removed the (empty) shifted row 17 instead of full row 18.  Row
count 20 and the reported count of 2 cleared lines are preserved, but a
detected full row remains and a non-full row was removed. -/
theorem clearCompletion_leaves_detected_full_row :
    fullRowIndices boardTwoFullBottomRows = [19, 18] ∧
    clearCompletion boardTwoFullBottomRows [19, 18] =
      (List.replicate 19 emptyRow ++ [List.replicate 10 1], 2) ∧
    rowFull ((clearCompletion boardTwoFullBottomRows [19, 18]).1.getD 19 []) = true ∧
    countFullRows (clearCompletion boardTwoFullBottomRows [19, 18]).1 = 1 := by
  decide

/-! ### Claim C4 — planner on an empty board with an O piece (corrected) -/

/-- Claim C4, counterexample: on the empty board the planner does NOT centre
the O piece.  All 36 candidates score `-52` except the two wall-adjacent
placements (`-46`, one less exposed edge in the bumpiness term), and the
first-found tie-break keeps the leftmost: the result has `targetCol = 0`,
whose leftmost occupied column is `0 + minCShape = 0 ≠ 4` (the claimed centred
column); `finalRow = 18` does hold. -/
theorem calculateBestMove_O_not_centered :
    calculateBestMove oPieceInit createEmptyBoard = some ⟨0, 0, some (-46), 18⟩ ∧
    (0 : Int) + (minCShape (oPieceInit.matrices.getD 0 []) : Int) ≠ 4 := by
  decide

/-- Claim C4, amended: on an empty 10×20 board with an O-shaped piece the
planner returns the move with `targetRotation = 0` and `targetCol = 0` (the
piece's leftmost occupied column is 0, the wall placement scoring strictly
better on bumpiness than the centre), and `finalRow = 18`. -/
theorem calculateBestMove_O_empty_board :
    (calculateBestMove oPieceInit createEmptyBoard).map AiMove.targetRotation = some 0 ∧
    (calculateBestMove oPieceInit createEmptyBoard).map
      (fun mv => mv.targetCol + (minCShape (oPieceInit.matrices.getD mv.targetRotation []) : Int))
      = some 0 ∧
    (calculateBestMove oPieceInit createEmptyBoard).map AiMove.finalRow = some 18 := by
  decide

/-! ### Claim C5 — AI driver rotation vs manual rotation (corrected)

`rotatePiece` tries vertical kicks `{-1, -2}` for the I shape and `{-1}` for
every other shape (when `row ≤ 1`); `executeAiStep` tries `{-1, -2}` for the
I, L and J shapes and nothing for the others, so the two operations disagree
for T/S/Z/O pieces near the top (and for L/J when only the `-2` kick fits). -/

/-- Claim C5, counterexample: a T piece at `(0, 4)` above a wall occupying row
2, columns 3-7.  The position is legal, the successor rotation collides there
and at every horizontal kick; the manual rotation then succeeds via the
vertical `-1` kick, but the AI driver, whose vertical kicks exist only for
I/L/J shapes, gives up (locks) — so the driver's attempt neither succeeds nor
matches the manual result. -/
theorem aiRotate_differs_from_manual :
    checkCollision tPieceTop tPieceTop.position boardRowTwoWall = false ∧
    aiRotateAttempt tPieceTop ((tPieceTop.rotation + 1) % tPieceTop.matrices.length)
      boardRowTwoWall = none ∧
    rotatePieceManual tPieceTop boardRowTwoWall =
      some { tPieceTop with rotation := 1, position := ⟨-1, 4⟩ } := by
  decide

/-- Claim C5, amended: for a piece whose shape is the 4-cell-wide `I` (where
both operations search the rotated position, then horizontal kicks
`{-1, +1, -2, +2}`, then, when `row ≤ 1`, vertical kicks `{-1, -2}`), the AI
driver's attempt at the successor rotation yields exactly the manual rotation
result; for L/J the driver additionally tries the `-2` vertical kick and for
all other shapes it tries no vertical kick and locks instead, so equality can
fail there. -/
theorem aiRotate_eq_manual_for_I (p : ActivePiece) (b : Board) (h : p.shape.id = "I") :
    aiRotateAttempt p ((p.rotation + 1) % p.matrices.length) b = rotatePieceManual p b := by
  unfold aiRotateAttempt rotatePieceManual
  by_cases hc : checkCollision { p with rotation := (p.rotation + 1) % p.matrices.length }
      p.position b
  · simp only [hc, not_true, if_neg, ite_false]
    cases hfl : firstLegal { p with rotation := (p.rotation + 1) % p.matrices.length } b
        ([-1, 1, -2, 2].map fun offset => ⟨p.position.row, p.position.col + offset⟩) with
    | some q => simp [hfl]
    | none =>
      by_cases hrow : p.position.row ≤ 1
      · simp [hfl, h, hrow, sub_eq_add_neg]
      · simp [hfl, h, hrow]
  · simp [hc]

/-- Claim C5, witness for the amended theorem: an I piece at `(0, 3)` on the
empty board. -/
theorem aiRotate_eq_manual_for_I_witness :
    aiRotateAttempt iPieceW ((iPieceW.rotation + 1) % iPieceW.matrices.length) createEmptyBoard
      = rotatePieceManual iPieceW createEmptyBoard :=
  aiRotate_eq_manual_for_I iPieceW createEmptyBoard rfl

/-! ### Claim C6 — score and line-count updates (confirmed) -/

/-- Claim C6: clearing `n > 0` lines at level `L` adds exactly
`n * 100 * n * L` points and `n` total lines. -/
theorem scoringUpdate_deltas (c : Counters) (n : Nat) (h : 0 < n) :
    (scoringUpdate c n).score = c.score + n * 100 * n * c.level ∧
    (scoringUpdate c n).totalLines = c.totalLines + n := by
  simp only [scoringUpdate]
  rw [if_pos h]
  refine ⟨?_, ?_⟩ <;> split <;> rfl

/-- Claim C6, witness: clearing 2 lines at level 3 adds exactly 1200 points. -/
theorem scoringUpdate_deltas_witness :
    (scoringUpdate ⟨0, 0, 3, 850⟩ 2).score = 0 + 2 * 100 * 2 * 3 ∧
    (scoringUpdate ⟨0, 0, 3, 850⟩ 2).totalLines = 0 + 2 :=
  scoringUpdate_deltas ⟨0, 0, 3, 850⟩ 2 (by decide)

/-! ### Claim C7 — leveling and fall interval (confirmed) -/

/-- Claim C7: under the maintained invariant `level = totalLines / 10 + 1`,
the update raises the level exactly when the new total crosses a multiple of
10, the new level is `floor(newTotal / 10) + 1`, and on a raise to level `k`
the fall interval becomes `max(100, 1000 - (k - 1) * 50)`, never below 100
(when the level does not rise the interval is untouched). -/
theorem scoringUpdate_level (c : Counters) (n : Nat) (h : 0 < n)
    (hinv : c.level = c.totalLines / LINES_PER_LEVEL + 1) :
    (scoringUpdate c n).level = (c.totalLines + n) / 10 + 1 ∧
    (c.level < (scoringUpdate c n).level ↔
      ∃ m, c.totalLines < 10 * m ∧ 10 * m ≤ c.totalLines + n) ∧
    (c.level < (scoringUpdate c n).level →
      (scoringUpdate c n).fallInterval =
        max 100 (1000 - (((scoringUpdate c n).level : Int) - 1) * 50) ∧
      (100 : Int) ≤ (scoringUpdate c n).fallInterval) ∧
    (¬ c.level < (scoringUpdate c n).level →
      (scoringUpdate c n).fallInterval = c.fallInterval) := by
  simp only [LINES_PER_LEVEL] at hinv
  by_cases hcond : c.level < (c.totalLines + n) / LINES_PER_LEVEL + 1
  · have hup : scoringUpdate c n =
        { score := c.score + n * 100 * n * c.level, totalLines := c.totalLines + n,
          level := (c.totalLines + n) / LINES_PER_LEVEL + 1,
          fallInterval := max 100 (INITIAL_FALL_INTERVAL -
            ((((c.totalLines + n) / LINES_PER_LEVEL + 1 : Nat) : Int) - 1) *
              LEVEL_INTERVAL_DECREMENT) } := by
      simp only [scoringUpdate]
      rw [if_pos h, if_pos hcond]
    have hlevel : (scoringUpdate c n).level = (c.totalLines + n) / 10 + 1 := by
      rw [hup]
      simp [LINES_PER_LEVEL]
    have hlt : c.level < (scoringUpdate c n).level := by
      rw [hlevel]
      simpa [LINES_PER_LEVEL] using hcond
    have hfall : (scoringUpdate c n).fallInterval =
        max 100 (1000 - (((scoringUpdate c n).level : Int) - 1) * 50) := by
      rw [hup]
      simp [LINES_PER_LEVEL, INITIAL_FALL_INTERVAL, LEVEL_INTERVAL_DECREMENT]
    simp only [LINES_PER_LEVEL] at hcond
    exact ⟨hlevel, ⟨fun _ => ⟨(c.totalLines + n) / 10, by omega, by omega⟩, fun _ => hlt⟩,
      fun _ => ⟨hfall, hfall ▸ le_max_left _ _⟩, fun hn => absurd hlt hn⟩
  · have hup : scoringUpdate c n =
        { c with score := c.score + n * 100 * n * c.level, totalLines := c.totalLines + n } := by
      simp only [scoringUpdate]
      rw [if_pos h, if_neg hcond]
    have hlevel2 : (scoringUpdate c n).level = c.level := by rw [hup]
    have hfall2 : (scoringUpdate c n).fallInterval = c.fallInterval := by rw [hup]
    simp only [LINES_PER_LEVEL] at hcond
    refine ⟨by rw [hlevel2]; omega, ⟨fun hlt => absurd (hlevel2 ▸ hlt) (lt_irrefl _), ?_⟩,
      fun hlt => absurd (hlevel2 ▸ hlt) (lt_irrefl _), fun _ => hfall2⟩
    rintro ⟨m, h1, h2⟩
    rw [hlevel2]
    omega

/-- Claim C7, witness: 9 total lines at level 1; clearing one more line crosses
10 and raises the level to 2 with fall interval `max 100 (1000 - 50) = 950`. -/
theorem scoringUpdate_level_witness :
    (scoringUpdate ⟨0, 9, 1, 1000⟩ 1).level = (9 + 1) / 10 + 1 ∧
    ((1 : Nat) < (scoringUpdate ⟨0, 9, 1, 1000⟩ 1).level ↔
      ∃ m, 9 < 10 * m ∧ 10 * m ≤ 9 + 1) ∧
    ((1 : Nat) < (scoringUpdate ⟨0, 9, 1, 1000⟩ 1).level →
      (scoringUpdate ⟨0, 9, 1, 1000⟩ 1).fallInterval =
        max 100 (1000 - (((scoringUpdate ⟨0, 9, 1, 1000⟩ 1).level : Int) - 1) * 50) ∧
      (100 : Int) ≤ (scoringUpdate ⟨0, 9, 1, 1000⟩ 1).fallInterval) ∧
    (¬ (1 : Nat) < (scoringUpdate ⟨0, 9, 1, 1000⟩ 1).level →
      (scoringUpdate ⟨0, 9, 1, 1000⟩ 1).fallInterval = 1000) :=
  scoringUpdate_level ⟨0, 9, 1, 1000⟩ 1 (by decide) (by decide)

/-! ### Claim C8 — the AI think delay (corrected) -/

/-- Claim C8, counterexample: at fall interval 100 (a positive, reachable
value — it is the floor the interval converges to) the think delay is
`min (100 / 2) 200 = 50`, below the claimed minimum of 100.  The `: 100`
branch of the ternary applies only when the interval is not positive. -/
theorem computeThinkTime_below_claimed_minimum :
    computeThinkTime 100 = 50 ∧ ¬ ((100 : ℚ) ≤ computeThinkTime 100) := by
  constructor <;> norm_num [computeThinkTime]

/-- Claim C8, amended: for every fall interval `f > 0` the AI think delay
equals half of `f` capped at 200 time-units; there is no lower bound for
positive intervals (the fixed delay 100 is only the fallback for `f ≤ 0`). -/
theorem computeThinkTime_half_capped (f : ℚ) (h : 0 < f) :
    computeThinkTime f = min (f / 2) 200 := by
  unfold computeThinkTime
  rw [if_pos h]

/-- Claim C8, witness: at interval 400 the delay is `min 200 200`. -/
theorem computeThinkTime_half_capped_witness :
    (0 : ℚ) < 400 ∧ computeThinkTime 400 = min (400 / 2) 200 :=
  ⟨by norm_num, computeThinkTime_half_capped 400 (by norm_num)⟩

/-! ### Claim C9 — the Clearing phase guards (confirmed) -/

/-- Claim C9: while the Clearing phase is active (`isClearing = true`), every
gravity tick, manual move/rotate/soft-drop/hard-drop, AI driver step and lock
request leaves the board, the active piece and the session counters
unchanged — the board is only mutated by the clear-completion step itself. -/
theorem clearing_phase_noops (s : GameS) (dRow dCol : Int) (ai te : Bool)
    (sa sb : ActivePiece) (h : s.isClearing = true) :
    obs (movePieceS s dRow dCol).1 = obs s ∧ (movePieceS s dRow dCol).2 = false ∧
    obs (rotatePieceS s) = obs s ∧
    obs (moveDownS s sa sb) = obs s ∧
    obs (hardDropS s sa sb) = obs s ∧
    obs (gravityTickS s ai te sa sb) = obs s ∧
    obs (executeAiStepS s ai sa sb) = obs s ∧
    obs (lockPieceS s s.currentPiece sa sb) = obs s := by
  refine ⟨?_, ?_, ?_, ?_, ?_, ?_, ?_, ?_⟩ <;>
    cases hcp : s.currentPiece <;>
      simp [movePieceS, rotatePieceS, moveDownS, hardDropS, gravityTickS, executeAiStepS,
        lockPieceS, obs, h, hcp]

/-- Claim C9, witness: the no-op property at a concrete mid-clear state. -/
theorem clearing_phase_noops_witness :
    obs (movePieceS clearingStateW 0 1).1 = obs clearingStateW ∧
    (movePieceS clearingStateW 0 1).2 = false ∧
    obs (rotatePieceS clearingStateW) = obs clearingStateW ∧
    obs (moveDownS clearingStateW oPieceInit oPieceInit) = obs clearingStateW ∧
    obs (hardDropS clearingStateW oPieceInit oPieceInit) = obs clearingStateW ∧
    obs (gravityTickS clearingStateW true true oPieceInit oPieceInit) = obs clearingStateW ∧
    obs (executeAiStepS clearingStateW true oPieceInit oPieceInit) = obs clearingStateW ∧
    obs (lockPieceS clearingStateW clearingStateW.currentPiece oPieceInit oPieceInit)
      = obs clearingStateW :=
  clearing_phase_noops clearingStateW 0 1 true true oPieceInit oPieceInit rfl

/-! ### Claim C10 — the lock write (confirmed)

Auxiliary lemmas characterising `setCell` and the `settle` fold. -/

theorem getD_mem {α : Type} {l : List α} {n : Nat} (d : α) (h : n < l.length) :
    l.getD n d ∈ l := by
  rw [List.getD_eq_getElem?_getD, List.getElem?_eq_getElem h]
  exact List.getElem_mem h

theorem getD_set {α : Type} (l : List α) (n m : Nat) (a d : α) :
    (l.set n a).getD m d = if n = m ∧ n < l.length then a else l.getD m d := by
  rw [List.getD_eq_getElem?_getD, List.getElem?_set]
  by_cases h1 : n = m
  · subst h1
    by_cases h2 : n < l.length
    · simp [h2]
    · rw [if_pos rfl, if_neg h2, if_neg (fun h => h2 h.2),
        List.getD_eq_getElem?_getD, List.getElem?_eq_none (Nat.le_of_not_lt h2)]
  · rw [if_neg h1, if_neg (fun h => h1 h.1), List.getD_eq_getElem?_getD]

theorem wf_row_len {b : Board} (hwf : wellFormed b) {n : Nat} (hn : n < BOARD_HEIGHT) :
    (b.getD n []).length = BOARD_WIDTH :=
  hwf.2 _ (getD_mem _ (by rw [hwf.1]; exact hn))

theorem wellFormed_setCell {b : Board} (r c : Int) (v : Nat) (hwf : wellFormed b) :
    wellFormed (setCell b r c v) := by
  obtain ⟨hl, hrow⟩ := hwf
  unfold setCell
  by_cases hr : r.toNat < b.length
  · refine ⟨by simp [hl], ?_⟩
    intro row hmem
    rcases List.mem_or_eq_of_mem_set hmem with hmem' | rfl
    · exact hrow row hmem'
    · rw [List.length_set]
      exact hrow _ (getD_mem _ hr)
  · rw [List.set_eq_of_length_le (Nat.le_of_not_lt hr)]
    exact ⟨hl, hrow⟩

theorem getCell_setCell_same {b : Board} {r c : Int} {v : Nat}
    (hr0 : 0 ≤ r) (hc0 : 0 ≤ c) (hr : r.toNat < b.length)
    (hc : c.toNat < (b.getD r.toNat []).length) :
    getCell (setCell b r c v) r c = v := by
  unfold getCell setCell
  rw [if_pos ⟨hr0, hc0⟩, getD_set, if_pos ⟨rfl, hr⟩, getD_set, if_pos ⟨rfl, hc⟩]

theorem getCell_setCell_other {b : Board} {r c R C : Int} {v : Nat}
    (hne : ¬ (R = r ∧ C = c)) (hr0 : 0 ≤ r) (hc0 : 0 ≤ c) :
    getCell (setCell b r c v) R C = getCell b R C := by
  unfold getCell setCell
  by_cases hRC : 0 ≤ R ∧ 0 ≤ C
  · rw [if_pos hRC, if_pos hRC, getD_set]
    split_ifs with h1
    · obtain ⟨h1a, h1b⟩ := h1
      have hReq : R = r := by omega
      have hCne : C.toNat ≠ c.toNat := by
        intro hEq
        exact hne ⟨hReq, by omega⟩
      rw [getD_set, if_neg (fun h => hCne h.1.symm), h1a]
    · rfl
  · rw [if_neg hRC, if_neg hRC]

theorem wellFormed_settleStep {pos : Position} {m : Matrix} {acc : Board}
    (rc : Nat × Nat) (hwf : wellFormed acc) : wellFormed (settleStep pos m acc rc) := by
  simp only [settleStep]
  split_ifs
  · exact wellFormed_setCell _ _ _ hwf
  · exact hwf
  · exact hwf

theorem wellFormed_foldl_settleStep {pos : Position} {m : Matrix} :
    ∀ (pairs : List (Nat × Nat)) (acc : Board), wellFormed acc →
      wellFormed (pairs.foldl (settleStep pos m) acc)
  | [], _, hwf => hwf
  | rc :: rest, _, hwf =>
    wellFormed_foldl_settleStep rest _ (wellFormed_settleStep rc hwf)

theorem foldl_settleStep_no_writer {pos : Position} {m : Matrix} {R C : Int} :
    ∀ (pairs : List (Nat × Nat)) (acc : Board),
      (∀ rc ∈ pairs, ¬ ((m.getD rc.1 []).getD rc.2 0 ≠ 0 ∧
        pos.row + (rc.1 : Int) = R ∧ pos.col + (rc.2 : Int) = C)) →
      getCell (pairs.foldl (settleStep pos m) acc) R C = getCell acc R C := by
  intro pairs
  induction pairs with
  | nil => intro acc _; rfl
  | cons rc rest ih =>
    intro acc hnw
    rw [List.foldl_cons, ih _ (fun x hx => hnw x (List.mem_cons_of_mem _ hx))]
    simp only [settleStep]
    split_ifs with h1 h2
    · refine getCell_setCell_other ?_ h2.1 h2.2.2.1
      rintro ⟨hR, hC⟩
      exact hnw rc (List.mem_cons_self _ _) ⟨h1, hR.symm, hC.symm⟩
    · rfl
    · rfl

theorem foldl_settleStep_writer {pos : Position} {m : Matrix} {R C : Int} {v : Nat}
    (_hv : v ≠ 0) (hbounds : 0 ≤ R ∧ R < (BOARD_HEIGHT : Int) ∧ 0 ≤ C ∧ C < (BOARD_WIDTH : Int)) :
    ∀ (pairs : List (Nat × Nat)) (acc : Board), wellFormed acc →
      (∀ rc ∈ pairs, ((m.getD rc.1 []).getD rc.2 0 ≠ 0 ∧
          pos.row + (rc.1 : Int) = R ∧ pos.col + (rc.2 : Int) = C) →
        (m.getD rc.1 []).getD rc.2 0 = v) →
      (∃ rc ∈ pairs, (m.getD rc.1 []).getD rc.2 0 ≠ 0 ∧
        pos.row + (rc.1 : Int) = R ∧ pos.col + (rc.2 : Int) = C) →
      getCell (pairs.foldl (settleStep pos m) acc) R C = v := by
  intro pairs
  induction pairs with
  | nil =>
    intro acc _ _ hex
    obtain ⟨rc, hrc, _⟩ := hex
    exact absurd hrc (List.not_mem_nil rc)
  | cons rc rest ih =>
    intro acc hwf hvals hex
    rw [List.foldl_cons]
    by_cases hw : (m.getD rc.1 []).getD rc.2 0 ≠ 0 ∧
        pos.row + (rc.1 : Int) = R ∧ pos.col + (rc.2 : Int) = C
    · have hval : (m.getD rc.1 []).getD rc.2 0 = v := hvals rc (List.mem_cons_self _ _) hw
      have hstep : getCell (settleStep pos m acc rc) R C = v := by
        simp only [settleStep]
        rw [if_pos hw.1, if_pos (by omega : 0 ≤ pos.row + (rc.1 : Int) ∧
          pos.row + (rc.1 : Int) < (BOARD_HEIGHT : Int) ∧ 0 ≤ pos.col + (rc.2 : Int) ∧
          pos.col + (rc.2 : Int) < (BOARD_WIDTH : Int))]
        rw [hw.2.1, hw.2.2, hval]
        refine getCell_setCell_same hbounds.1 hbounds.2.2.1 ?_ ?_
        · rw [hwf.1]; omega
        · rw [wf_row_len hwf (by omega)]; omega
      by_cases hrest : ∃ rc' ∈ rest, (m.getD rc'.1 []).getD rc'.2 0 ≠ 0 ∧
          pos.row + (rc'.1 : Int) = R ∧ pos.col + (rc'.2 : Int) = C
      · exact ih _ (wellFormed_settleStep rc hwf)
          (fun x hx => hvals x (List.mem_cons_of_mem _ hx)) hrest
      · push_neg at hrest
        rw [foldl_settleStep_no_writer rest _ (fun x hx hcontra =>
          hrest x hx hcontra.1 hcontra.2.1 hcontra.2.2), hstep]
    · obtain ⟨rc', hrc', hw'⟩ := hex
      have hrc'' : rc' ∈ rest := by
        rcases List.mem_cons.mp hrc' with rfl | hmem
        · exact absurd hw' hw
        · exact hmem
      exact ih _ (wellFormed_settleStep rc hwf)
        (fun x hx => hvals x (List.mem_cons_of_mem _ hx)) ⟨rc', hrc'', hw'⟩

theorem mem_cellPairs {m : Matrix} {r c : Nat} :
    (r, c) ∈ cellPairs m ↔ r < m.length ∧ c < (m.getD r []).length := by
  simp only [cellPairs, List.mem_flatMap, List.mem_map, List.mem_range]
  constructor
  · rintro ⟨a, ha, b, hb, heq⟩
    obtain ⟨rfl, rfl⟩ := Prod.mk.injEq .. ▸ heq
    exact ⟨ha, hb⟩
  · rintro ⟨hr, hc⟩
    exact ⟨r, hr, c, hc, rfl⟩

theorem getD_ne_zero_bounds {m : Matrix} {r c : Nat}
    (h : (m.getD r []).getD c 0 ≠ 0) : r < m.length ∧ c < (m.getD r []).length := by
  constructor
  · by_contra hge
    rw [List.getD_eq_getElem?_getD (m.getD r []), List.getD_eq_getElem?_getD m,
      List.getElem?_eq_none (Nat.le_of_not_lt hge)] at h
    simp at h
  · by_contra hge
    rw [List.getD_eq_getElem?_getD (m.getD r []),
      List.getElem?_eq_none (Nat.le_of_not_lt hge)] at h
    simp at h

/-- Claim C10: locking a piece writes into the board exactly those occupied
cells whose projection lies inside the visible board (`row ∈ [0, 20)`,
`col ∈ [0, 10)`); cells projecting out of bounds are silently dropped, the
board keeps exactly 20 rows of 10 cells, and every in-range position holds the
piece's cell value where one projects there and the old board value
otherwise. -/
theorem settle_spec (b : Board) (p : ActivePiece) (hwf : wellFormed b) :
    wellFormed (settle b p) ∧
    ∀ R C : Int, 0 ≤ R → R < (BOARD_HEIGHT : Int) → 0 ≤ C → C < (BOARD_WIDTH : Int) →
      getCell (settle b p) R C =
        if pieceCellAt p R C ≠ 0 then pieceCellAt p R C else getCell b R C := by
  constructor
  · exact wellFormed_foldl_settleStep _ _ hwf
  · intro R C hR0 hR hC0 hC
    simp only [settle]
    by_cases hpc : pieceCellAt p R C ≠ 0
    · rw [if_pos hpc]
      have hsigns : 0 ≤ R - p.position.row ∧ 0 ≤ C - p.position.col := by
        by_contra hneg
        rw [pieceCellAt, if_neg hneg] at hpc
        exact hpc rfl
      have hval : ((p.matrices.getD p.rotation []).getD (R - p.position.row).toNat []).getD
          (C - p.position.col).toNat 0 = pieceCellAt p R C := by
        rw [pieceCellAt, if_pos hsigns]
      have hbm := getD_ne_zero_bounds (m := p.matrices.getD p.rotation [])
        (r := (R - p.position.row).toNat) (c := (C - p.position.col).toNat)
        (hval ▸ hpc)
      refine foldl_settleStep_writer hpc ⟨hR0, hR, hC0, hC⟩ _ b hwf ?_ ?_
      · rintro ⟨r, c⟩ hmem ⟨hnz, hRr, hCc⟩
        have hr : r = (R - p.position.row).toNat := by omega
        have hc : c = (C - p.position.col).toNat := by omega
        rw [hr, hc, hval]
      · refine ⟨((R - p.position.row).toNat, (C - p.position.col).toNat),
          mem_cellPairs.mpr hbm, hval ▸ hpc, by omega, by omega⟩
    · rw [if_neg hpc]
      refine foldl_settleStep_no_writer _ _ ?_
      rintro ⟨r, c⟩ hmem ⟨hnz, hRr, hCc⟩
      apply hpc
      rw [pieceCellAt, if_pos (by omega : 0 ≤ R - p.position.row ∧ 0 ≤ C - p.position.col)]
      have hr : (R - p.position.row).toNat = r := by omega
      have hc : (C - p.position.col).toNat = c := by omega
      rw [hr, hc]
      exact hnz

/-- Claim C10, witness: the characterisation applied to the empty board and
the spawned T piece moved to position `(-1, -2)`, which has occupied cells
both inside and outside the visible board. -/
theorem settle_spec_witness :
    wellFormed (settle createEmptyBoard { spawnPiece T_SHAPE with position := ⟨-1, -2⟩ }) ∧
    ∀ R C : Int, 0 ≤ R → R < (BOARD_HEIGHT : Int) → 0 ≤ C → C < (BOARD_WIDTH : Int) →
      getCell (settle createEmptyBoard { spawnPiece T_SHAPE with position := ⟨-1, -2⟩ }) R C =
        if pieceCellAt { spawnPiece T_SHAPE with position := ⟨-1, -2⟩ } R C ≠ 0 then
          pieceCellAt { spawnPiece T_SHAPE with position := ⟨-1, -2⟩ } R C
        else getCell createEmptyBoard R C :=
  settle_spec createEmptyBoard { spawnPiece T_SHAPE with position := ⟨-1, -2⟩ } (by decide)

/-! ### Claim C2 — the collision predicate (confirmed) -/

/-- Claim C2: on the well-formed boards the game maintains, `checkCollision`
reports a placement illegal exactly when some non-empty cell of the piece's
current rotation matrix projects to a board row `≥ 20`, to a column `< 0` or
`≥ 10`, or to a row `≥ 0` whose board cell is already non-empty (read through
`getCell`); cells projecting to a negative row never collide against board
contents. -/
theorem checkCollision_spec (p : ActivePiece) (pos : Position) (b : Board)
    (_hwf : wellFormed b) :
    checkCollision p pos b = true ↔
      ∃ r c, r < (p.matrices.getD p.rotation []).length ∧
        c < ((p.matrices.getD p.rotation []).getD r []).length ∧
        ((p.matrices.getD p.rotation []).getD r []).getD c 0 ≠ 0 ∧
        ((BOARD_HEIGHT : Int) ≤ pos.row + r ∨ pos.col + c < 0 ∨
          (BOARD_WIDTH : Int) ≤ pos.col + c ∨
          (0 ≤ pos.row + r ∧ getCell b (pos.row + r) (pos.col + c) ≠ 0)) := by
  simp only [checkCollision, List.any_eq_true, List.mem_range, Bool.and_eq_true,
    Bool.or_eq_true, decide_eq_true_eq]
  constructor
  · rintro ⟨r, hr, c, hc, h1, h2⟩
    exact ⟨r, c, hr, hc, h1, by tauto⟩
  · rintro ⟨r, c, hr, hc, h1, h2⟩
    exact ⟨r, hr, c, hc, h1, by tauto⟩

/-- Claim C2, witness: the characterisation at the T piece and wall board. -/
theorem checkCollision_spec_witness :
    wellFormed boardRowTwoWall ∧
    (checkCollision tPieceTop tPieceTop.position boardRowTwoWall = true ↔
      ∃ r c, r < (tPieceTop.matrices.getD tPieceTop.rotation []).length ∧
        c < ((tPieceTop.matrices.getD tPieceTop.rotation []).getD r []).length ∧
        ((tPieceTop.matrices.getD tPieceTop.rotation []).getD r []).getD c 0 ≠ 0 ∧
        ((BOARD_HEIGHT : Int) ≤ tPieceTop.position.row + r ∨ tPieceTop.position.col + c < 0 ∨
          (BOARD_WIDTH : Int) ≤ tPieceTop.position.col + c ∨
          (0 ≤ tPieceTop.position.row + r ∧
            getCell boardRowTwoWall (tPieceTop.position.row + r)
              (tPieceTop.position.col + c) ≠ 0))) :=
  ⟨by decide, checkCollision_spec tPieceTop tPieceTop.position boardRowTwoWall (by decide)⟩

/-! ### Claim C3 — the heuristic evaluator (confirmed)

First the clearing loop of `evaluateBoardState` is characterised: it removes
exactly the full rows and pads the top with as many empty rows. -/

theorem getD_eq_getElem {α : Type} {l : List α} (d : α) {n : Nat} (h : n < l.length) :
    l.getD n d = l[n] := by
  rw [List.getD_eq_getElem?_getD, List.getElem?_eq_getElem h]
  rfl

theorem rowFull_emptyRow : rowFull emptyRow = false := by decide

theorem not_rowFull_emptyRow : ¬ rowFull emptyRow = true := by decide

theorem countP_not_add {α : Type} (p : α → Bool) (l : List α) :
    l.countP (fun a => ! p a) + l.countP p = l.length := by
  induction l with
  | nil => rfl
  | cons x xs ih =>
    by_cases hx : p x <;> simp [List.countP_cons, hx] <;> omega

theorem clearScanAux_spec : ∀ (fuel : Nat) (b : Board) (r : Nat),
    r < b.length → countFullRows b + r + 1 ≤ fuel →
    clearScanAux fuel b r =
      (List.replicate ((b.take (r + 1)).countP rowFull) emptyRow ++
        ((b.take (r + 1)).filter fun row => ! rowFull row) ++ b.drop (r + 1),
       (b.take (r + 1)).countP rowFull)
  | 0, b, r, _, hfuel => by omega
  | fuel + 1, b, r, hr, hfuel => by
    have e3 : b.take (r + 1) = b.take r ++ [b[r]] := by
      rw [List.take_succ, List.getElem?_eq_getElem hr]
      rfl
    simp only [clearScanAux]
    by_cases hfull : rowFull (b.getD r []) = true
    · have hfull' : rowFull b[r] = true := by rwa [getD_eq_getElem _ hr] at hfull
      rw [if_pos hfull]
      have hcnt : countFullRows b = countFullRows (emptyRow :: b.eraseIdx r) + 1 := by
        unfold countFullRows
        rw [List.countP_cons_of_neg _ _ not_rowFull_emptyRow]
        conv_lhs => rw [← List.take_append_drop r b, List.drop_eq_getElem_cons hr]
        rw [List.countP_append, List.countP_cons_of_pos _ _ hfull',
          List.eraseIdx_eq_take_drop_succ, List.countP_append]
        omega
      have hlen' : (emptyRow :: b.eraseIdx r).length = b.length := by
        rw [List.length_cons, List.length_eraseIdx_of_lt hr]
        omega
      have hrec := clearScanAux_spec fuel (emptyRow :: b.eraseIdx r) r (by omega) (by omega)
      rw [hrec]
      have e1 : (emptyRow :: b.eraseIdx r).take (r + 1) = emptyRow :: b.take r := by
        rw [List.take_succ_cons, List.eraseIdx_eq_take_drop_succ,
          List.take_left' (by rw [List.length_take]; omega)]
      have e2 : (emptyRow :: b.eraseIdx r).drop (r + 1) = b.drop (r + 1) := by
        rw [List.drop_succ_cons, List.eraseIdx_eq_take_drop_succ,
          List.drop_left' (by rw [List.length_take]; omega)]
      have c1 : (b.take (r + 1)).countP rowFull = (b.take r).countP rowFull + 1 := by
        rw [e3, List.countP_append, List.countP_singleton, if_pos hfull']
      have c2 : ((emptyRow :: b.eraseIdx r).take (r + 1)).countP rowFull =
          (b.take r).countP rowFull := by
        rw [e1, List.countP_cons_of_neg _ _ not_rowFull_emptyRow]
      have f1 : ((b.take (r + 1)).filter fun row => ! rowFull row) =
          (b.take r).filter fun row => ! rowFull row := by
        rw [e3, List.filter_append]
        simp [hfull']
      have f2 : (((emptyRow :: b.eraseIdx r).take (r + 1)).filter fun row => ! rowFull row) =
          emptyRow :: ((b.take r).filter fun row => ! rowFull row) := by
        rw [e1, List.filter_cons]
        simp [rowFull_emptyRow]
      rw [c1, c2, f1, f2, e2, List.replicate_succ']
      simp [List.append_assoc]
    · rw [if_neg hfull]
      have hfull' : rowFull b[r] = false := by
        rw [← getD_eq_getElem ([] : Row) hr]
        exact Bool.not_eq_true _ ▸ hfull
      have c1 : (b.take (r + 1)).countP rowFull = (b.take r).countP rowFull := by
        rw [e3, List.countP_append, List.countP_singleton, if_neg (by rw [hfull']; exact Bool.false_ne_true)]
        omega
      have f1 : ((b.take (r + 1)).filter fun row => ! rowFull row) =
          ((b.take r).filter fun row => ! rowFull row) ++ [b[r]] := by
        rw [e3, List.filter_append]
        simp [hfull']
      by_cases hr0 : r = 0
      · subst hr0
        rw [if_pos rfl]
        rw [c1, f1]
        simp only [List.take_zero, List.countP_nil, List.replicate_zero, List.filter_nil,
          List.nil_append]
        rw [List.singleton_append, ← List.drop_eq_getElem_cons hr, List.drop_zero]
      · rw [if_neg hr0]
        have hrec := clearScanAux_spec fuel b (r - 1) (by omega) (by omega)
        rw [hrec]
        have hr1 : r - 1 + 1 = r := by omega
        rw [hr1, c1, f1, List.drop_eq_getElem_cons hr]
        simp [List.append_assoc]

/-- The clearing loop of `evaluateBoardState` on a well-formed board removes
exactly the full rows, pads the top with as many empty rows, and reports the
number of full rows as the lines cleared. -/
theorem clearScan_spec (b : Board) (hwf : wellFormed b) :
    clearScan b = (clearedBoardSpec b, countFullRows b) := by
  have h20 : b.length = 20 := hwf.1
  have hcle : countFullRows b ≤ 20 := by
    have h := List.countP_le_length (p := rowFull) (l := b)
    unfold countFullRows
    omega
  have haux := clearScanAux_spec 64 b 19 (by omega) (by omega)
  show clearScanAux 64 b (BOARD_HEIGHT - 1) = _
  have hbh : BOARD_HEIGHT - 1 = 19 := rfl
  rw [hbh, haux, (by omega : 19 + 1 = 20), ← h20, List.take_length, List.drop_length,
    List.append_nil]
  rfl

theorem firstNonzero_eq_none_iff (l : List Nat) :
    firstNonzero l = none ↔ ∀ x ∈ l, x = 0 := by
  induction l with
  | nil => simp [firstNonzero]
  | cons x xs ih =>
    simp only [firstNonzero]
    by_cases hx : x ≠ 0
    · simp [hx]
    · push_neg at hx
      subst hx
      simp [ih, Option.map_eq_none']

theorem firstNonzero_eq_some (l : List Nat) (r : Nat) (h : firstNonzero l = some r) :
    r < l.length ∧ l.getD r 0 ≠ 0 ∧ ∀ k < r, l.getD k 0 = 0 := by
  induction l generalizing r with
  | nil => simp [firstNonzero] at h
  | cons x xs ih =>
    simp only [firstNonzero] at h
    by_cases hx : x ≠ 0
    · rw [if_pos hx] at h
      cases h
      exact ⟨by simp, hx, by omega⟩
    · rw [if_neg hx] at h
      push_neg at hx
      cases hmap : firstNonzero xs with
      | none => rw [hmap] at h; simp at h
      | some s =>
        rw [hmap] at h
        simp only [Option.map_some'] at h
        obtain ⟨h1, h2, h3⟩ := ih s hmap
        cases h
        refine ⟨by simpa using h1, by simpa using h2, ?_⟩
        intro k hk
        cases k with
        | zero => simpa using hx
        | succ j => simpa using h3 j (by omega)

theorem colHeight_eq_spec (b : Board) (c : Nat) (hl : b.length = BOARD_HEIGHT) :
    colHeight b c = colHeightSpecCol (colCells b c) := by
  have hcl : (colCells b c).length = BOARD_HEIGHT := by
    simp [colCells, hl]
  unfold colHeight colHeightSpecCol
  cases hfn : firstNonzero (colCells b c) with
  | none =>
    have hall := (firstNonzero_eq_none_iff _).mp hfn
    have hempty : ((Finset.range BOARD_HEIGHT).filter
        fun r => (colCells b c).getD r 0 ≠ 0) = ∅ := by
      apply Finset.filter_eq_empty_iff.mpr
      intro r hr
      simp only [ne_eq, not_not]
      exact hall _ (getD_mem _ (by rw [hcl]; exact Finset.mem_range.mp hr))
    rw [hempty, Finset.sup_empty]
    rfl
  | some r =>
    obtain ⟨h1, h2, h3⟩ := firstNonzero_eq_some _ _ hfn
    change BOARD_HEIGHT - r = _
    refine le_antisymm ?_ ?_
    · refine Finset.le_sup (f := fun r => BOARD_HEIGHT - r) ?_
      simp only [Finset.mem_filter, Finset.mem_range]
      exact ⟨by omega, h2⟩
    · refine Finset.sup_le ?_
      intro x hx
      simp only [Finset.mem_filter, Finset.mem_range] at hx
      have hrx : r ≤ x := by
        by_contra hlt
        exact hx.2 (h3 x (by omega))
      omega

theorem range_succ_any (q : Nat → Bool) (i : Nat) :
    (List.range (i + 1)).any q = (q 0 || (List.range i).any fun j => q (j + 1)) := by
  rw [List.range_succ_eq_map, List.any_cons, List.any_map]
  rfl

theorem holesInCol_eq (l : List Nat) (reached : Bool) :
    holesInCol l reached = (List.range l.length).countP fun i =>
      decide (l.getD i 0 = 0) &&
        (reached || (List.range i).any fun j => decide (l.getD j 0 ≠ 0)) := by
  induction l generalizing reached with
  | nil => simp [holesInCol]
  | cons x xs ih =>
    have hrange : List.range (x :: xs).length = 0 :: (List.range xs.length).map Nat.succ := by
      rw [List.length_cons, List.range_succ_eq_map]
    rw [hrange, List.countP_cons, List.countP_map]
    by_cases hx : x ≠ 0
    · have hL : holesInCol (x :: xs) reached = holesInCol xs true := by
        simp [holesInCol, hx]
      have hshift : ∀ i ∈ List.range xs.length,
          ((fun i => decide ((x :: xs).getD i 0 = 0) && (reached ||
            (List.range i).any fun j => decide ((x :: xs).getD j 0 ≠ 0))) ∘ Nat.succ) i =
          (fun i => decide (xs.getD i 0 = 0) && (true ||
            (List.range i).any fun j => decide (xs.getD j 0 ≠ 0))) i := by
        intro i _
        simp only [Function.comp_apply, List.getD_cons_succ, range_succ_any,
          List.getD_cons_zero]
        rw [decide_eq_true hx]
        simp
      rw [List.countP_congr fun i hi => by rw [hshift i hi]]
      rw [hL, ih true]
      simp [hx]
    · push_neg at hx
      subst hx
      have hL : holesInCol (0 :: xs) reached =
          (if reached then 1 else 0) + holesInCol xs reached := by
        simp [holesInCol]
      have hshift : ∀ i ∈ List.range xs.length,
          ((fun i => decide ((0 :: xs).getD i 0 = 0) && (reached ||
            (List.range i).any fun j => decide ((0 :: xs).getD j 0 ≠ 0))) ∘ Nat.succ) i =
          (fun i => decide (xs.getD i 0 = 0) && (reached ||
            (List.range i).any fun j => decide (xs.getD j 0 ≠ 0))) i := by
        intro i _
        simp only [Function.comp_apply, List.getD_cons_succ, range_succ_any,
          List.getD_cons_zero]
        simp
      rw [List.countP_congr fun i hi => by rw [hshift i hi]]
      rw [hL, ih reached]
      simp
      cases reached <;> simp [Nat.add_comm]

theorem aggregateHeight_eq_spec (b : Board) (hl : b.length = BOARD_HEIGHT) :
    aggregateHeight b = aggregateHeightSpec b := by
  unfold aggregateHeight aggregateHeightSpec
  congr 1
  exact List.map_congr_left fun c _ => colHeight_eq_spec b c hl

theorem countHoles_eq_spec (b : Board) : countHoles b = holesSpec b := by
  unfold countHoles holesSpec
  congr 1
  refine List.map_congr_left fun c _ => ?_
  rw [holesInCol_eq (colCells b c) false]
  unfold holesSpecCol
  refine List.countP_congr fun i _ => by simp

theorem bumpiness_eq_spec (b : Board) (hl : b.length = BOARD_HEIGHT) :
    bumpiness b = bumpinessSpec b := by
  unfold bumpiness bumpinessSpec
  congr 1
  refine List.map_congr_left fun c _ => ?_
  rw [colHeight_eq_spec b c hl, colHeight_eq_spec b (c + 1) hl]

theorem placedBelowTop_iff (p : ActivePiece) (dropRow : Int) :
    placedBelowTop p dropRow = true ↔ invalidPlacement p dropRow := by
  unfold placedBelowTop invalidPlacement
  simp only [List.any_eq_true, Bool.and_eq_true, decide_eq_true_eq]
  constructor
  · rintro ⟨⟨r, c⟩, hmem, h1, h2⟩
    have hb := mem_cellPairs.mp hmem
    exact ⟨r, c, hb.1, hb.2, h1, h2⟩
  · rintro ⟨r, c, hr, hc, h1, h2⟩
    exact ⟨(r, c), mem_cellPairs.mpr ⟨hr, hc⟩, h1, h2⟩

theorem wellFormed_settle (b : Board) (p : ActivePiece) (hwf : wellFormed b) :
    wellFormed (settle b p) := wellFormed_foldl_settleStep _ _ hwf

/-- Claim C3: `evaluateBoardState` returns `-Infinity` (`none`) exactly when
some occupied cell of the simulated placement lands at a row `< 0`; otherwise
it returns `linesCleared * 5000 - aggregateHeight * 10 - holes * 75 -
bumpiness * 3`, where `linesCleared` is the number of full rows of the settled
copy and the aggregate height, holes and bumpiness (in their specification
readings) are computed on that copy after removing the full rows and padding
the top with as many empty rows. -/
theorem evaluateBoardState_spec (tempBoard : Board) (piece : ActivePiece) (dropRow : Int)
    (hwf : wellFormed tempBoard) :
    evaluateBoardState tempBoard piece dropRow =
      if invalidPlacement piece dropRow then none
      else
        some ((countFullRows (settleAt tempBoard piece dropRow) : Int) * 5000
          - (aggregateHeightSpec (clearedBoardSpec (settleAt tempBoard piece dropRow)) : Int) * 10
          - (holesSpec (clearedBoardSpec (settleAt tempBoard piece dropRow)) : Int) * 75
          - (bumpinessSpec (clearedBoardSpec (settleAt tempBoard piece dropRow)) : Int) * 3) := by
  have hwfp : wellFormed (settleAt tempBoard piece dropRow) :=
    wellFormed_settle _ _ hwf
  have hlen : (clearedBoardSpec (settleAt tempBoard piece dropRow)).length = BOARD_HEIGHT := by
    unfold clearedBoardSpec
    rw [List.length_append, List.length_replicate, ← List.countP_eq_length_filter]
    have h1 := countP_not_add rowFull (settleAt tempBoard piece dropRow)
    have h2 := hwfp.1
    unfold countFullRows
    omega
  simp only [evaluateBoardState]
  by_cases hinv : invalidPlacement piece dropRow
  · rw [if_pos ((placedBelowTop_iff piece dropRow).mpr hinv), if_pos hinv]
  · rw [if_neg fun h => hinv ((placedBelowTop_iff piece dropRow).mp h), if_neg hinv,
      clearScan_spec _ hwfp]
    rw [aggregateHeight_eq_spec _ hlen, countHoles_eq_spec, bumpiness_eq_spec _ hlen]

/-- Claim C3, witness: the evaluator characterisation applied to the empty
board with the O piece dropped at row 18, column 0. -/
theorem evaluateBoardState_spec_witness :
    wellFormed createEmptyBoard ∧
    evaluateBoardState createEmptyBoard { oPieceInit with position := ⟨18, 0⟩ } 18 =
      (if invalidPlacement { oPieceInit with position := ⟨18, 0⟩ } 18 then none
      else
        some ((countFullRows (settleAt createEmptyBoard
            { oPieceInit with position := ⟨18, 0⟩ } 18) : Int) * 5000
          - (aggregateHeightSpec (clearedBoardSpec (settleAt createEmptyBoard
              { oPieceInit with position := ⟨18, 0⟩ } 18)) : Int) * 10
          - (holesSpec (clearedBoardSpec (settleAt createEmptyBoard
              { oPieceInit with position := ⟨18, 0⟩ } 18)) : Int) * 75
          - (bumpinessSpec (clearedBoardSpec (settleAt createEmptyBoard
              { oPieceInit with position := ⟨18, 0⟩ } 18)) : Int) * 3)) :=
  ⟨by decide, evaluateBoardState_spec createEmptyBoard
    { oPieceInit with position := ⟨18, 0⟩ } 18 (by decide)⟩
